import Mathlib

/-
Verification development for the zero-calendar calendar intelligence core
(the calendarTools module: findEvents, findOptimalMeetingTime,
getCalendarAnalytics, findFreeTimeSlots, suggestRescheduling).

Modelling conventions:
- Timestamps are integer epoch milliseconds (JS Date time values are integral
  millisecond counts), the local timezone is taken to be UTC with no DST, so
  startOfDay truncates to a multiple of 86400000 and setHours(h,0,0,0) on a
  midnight adds h * 3600000.
- The source field named end is called stop here, since end is reserved.
- The event snapshot delivered by the external repository (getEvents) is an
  explicit parameter of each operation, matching the fetch-once contract.
- JS Array.prototype.sort is a stable sort; it is modelled by insertion sort
  (stable) on the same comparator (ascending event start).
- Human-readable label strings produced with date-fns format are display-only
  and are not modelled.
- Fractional minute quantities in the analytics report are exact rationals.
  The JS expression totalMeetingMinutes / dayCount with dayCount = 0 produces
  NaN or Infinity; the corresponding report fields are modelled as Option
  values with none standing for that non-finite result. The busiestDay field
  is the empty string when no bucket exists; it is modelled as Option with
  none standing for the empty string and a bucket key otherwise.
-/

namespace ZeroCalendar

/-- A calendar event as consumed by the tools layer. The source field end is
named stop. Timestamps are integer epoch milliseconds. In the source,
categories may be absent or empty; both behave identically (the fallback
branch), so a plain list is used. -/
structure Event where
  id : String
  title : Option String
  description : Option String
  location : Option String
  start : ℤ
  stop : ℤ
  allDay : Bool
  categories : List String
deriving DecidableEq

/-- A time interval given by start and stop in epoch milliseconds. Used both
for the clipped working-hours window and for event intervals. -/
structure Iv where
  start : ℤ
  stop : ℤ
deriving DecidableEq

/-- The interval of an event. -/
def Event.iv (e : Event) : Iv := ⟨e.start, e.stop⟩

/-- date-fns areIntervalsOverlapping with default options (exclusive
endpoints): the intervals share time iff a.start < b.stop and
b.start < a.stop. Half-open semantics: touching endpoints do not overlap. -/
def areIntervalsOverlapping (a b : Iv) : Bool :=
  decide (a.start < b.stop) && decide (b.start < a.stop)

/-- Milliseconds in one calendar day. -/
def msPerDay : ℤ := 86400000

/-- date-fns startOfDay under the UTC model: truncate to the enclosing
midnight (floor division, correct for timestamps before the epoch too). -/
def startOfDay (t : ℤ) : ℤ := msPerDay * (t.fdiv msPerDay)

/-- date-fns addDays under the UTC model (no DST). -/
def addDays (t n : ℤ) : ℤ := t + n * msPerDay

/-- date-fns isSameDay: same calendar day iff same startOfDay. -/
def isSameDay (a b : ℤ) : Bool := decide (startOfDay a = startOfDay b)

/-- Comparator used by findFreeTimeSlots to sort the snapshot:
ascending event start time. -/
def eventLe (a b : Event) : Prop := a.start ≤ b.start

instance : DecidableRel eventLe := fun a b => by unfold eventLe; infer_instance

instance : IsTotal Event eventLe := ⟨fun a b => le_total a.start b.start⟩

instance : IsTrans Event eventLe := ⟨fun _ _ _ h1 h2 => le_trans h1 h2⟩

/-- A free slot as returned by findFreeTimeSlots: start and stop in epoch
milliseconds plus the whole-minute duration Math.floor((stop-start)/60000).
The display label is not modelled. -/
structure FreeSlot where
  start : ℤ
  stop : ℤ
  duration : ℤ
deriving DecidableEq

/-- The slot emitted for the gap between the end of marker a and the start of
the following marker b. -/
def mkFreeSlot (a b : Iv) : FreeSlot :=
  ⟨a.stop, b.start, (b.start - a.stop).fdiv 60000⟩

/-- The per-day gap loop of findFreeTimeSlots: for each adjacent pair of
boundary markers, emit a slot when the gap nextStart - currentEnd is at
least minDurationMinutes * 60 * 1000. -/
def slotsOfMarkers (minDurationMinutes : ℤ) : List Iv → List FreeSlot
  | a :: b :: rest =>
    (if minDurationMinutes * 60000 ≤ b.start - a.stop then [mkFreeSlot a b] else [])
      ++ slotsOfMarkers minDurationMinutes (b :: rest)
  | _ => []

/-- The clipped lower bound of the working window of the day currentDay:
effectiveDayStart = dayStart < start ? start : dayStart, where
dayStart = currentDay at 09:00. -/
def effectiveDayStart (start currentDay : ℤ) : ℤ :=
  if currentDay + 32400000 < start then start else currentDay + 32400000

/-- The clipped upper bound of the working window of the day currentDay:
effectiveDayEnd = dayEnd > stop ? stop : dayEnd, where
dayEnd = currentDay at 17:00. -/
def effectiveDayEnd (stop currentDay : ℤ) : ℤ :=
  if currentDay + 61200000 > stop then stop else currentDay + 61200000

/-- One iteration of the day loop of findFreeTimeSlots for the midnight
currentDay: working window 09:00 to 17:00, the skip guard
(dayEnd < start or dayStart > stop), clipping to the query range, selection
of overlapping events from the sorted snapshot, and the gap scan over the
augmented marker list (zero-length sentinels at the effective bounds). -/
def daySlots (sortedEvents : List Event) (start stop minDurationMinutes currentDay : ℤ) :
    List FreeSlot :=
  if currentDay + 61200000 < start ∨ currentDay + 32400000 > stop then []
  else
    let dayEvents := sortedEvents.filter
      (fun ev => areIntervalsOverlapping
        ⟨effectiveDayStart start currentDay, effectiveDayEnd stop currentDay⟩ ev.iv)
    let augmentedEvents :=
      Iv.mk (effectiveDayStart start currentDay) (effectiveDayStart start currentDay) ::
        (dayEvents.map Event.iv
          ++ [Iv.mk (effectiveDayEnd stop currentDay) (effectiveDayEnd stop currentDay)])
    slotsOfMarkers minDurationMinutes augmentedEvents

/-- Number of iterations of the while loop of findFreeTimeSlots. The loop
runs currentDay from startOfDay start while currentDay is at most
endOfDay stop = startOfDay stop + 86399999; since currentDay is always a
midnight, that bound is equivalent to currentDay at most startOfDay stop. -/
def numDays (start stop : ℤ) : ℕ :=
  ((startOfDay stop - startOfDay start).fdiv msPerDay + 1).toNat

/-- The midnights visited by the day loop, in order. -/
def dayList (start stop : ℤ) : List ℤ :=
  (List.range (numDays start stop)).map (fun i : ℕ => startOfDay start + msPerDay * (i : ℤ))

/-- The result object of findFreeTimeSlots. -/
structure FreeTimeSlotsResult where
  freeSlots : List FreeSlot
  totalFreeSlots : ℕ
  totalFreeDurationMinutes : ℤ
deriving DecidableEq

/-- findFreeTimeSlots(userId, startDate, endDate, minDurationMinutes = 30):
sort the fetched snapshot ascending by start (stable), walk the calendar
days of the range, and concatenate the slots of every day; report the list plus
roll-up count and total duration. The fetched snapshot is the events
parameter. -/
def findFreeTimeSlots (events : List Event) (start stop minDurationMinutes : ℤ) :
    FreeTimeSlotsResult :=
  let sortedEvents := List.insertionSort eventLe events
  let freeSlots :=
    (dayList start stop).flatMap (daySlots sortedEvents start stop minDurationMinutes)
  ⟨freeSlots, freeSlots.length,
    freeSlots.foldl (fun total slot => total + slot.duration) 0⟩

/-- Result of suggestRescheduling: either the failure object
(success: false, message) or the success object carrying the event summary
and the alternative slots. -/
inductive RescheduleResult where
  | failure (message : String)
  | success (id : String) (title : Option String) (start stop duration : ℤ)
      (alternativeSlots : List FreeSlot)
deriving DecidableEq

/-- The alternativeSlots carried by a reschedule result (empty on failure). -/
def RescheduleResult.alternatives : RescheduleResult → List FreeSlot
  | .failure _ => []
  | .success _ _ _ _ _ alts => alts

/-- suggestRescheduling(userId, eventId): look up the target event in the
snapshot fetched for [now, now + 14 days], compute its whole-minute
duration, scan the same window for free slots of at least that duration,
drop slots on the same calendar day as the event start, and keep the first
three. The snapshot and the current time are explicit parameters. -/
def suggestRescheduling (events : List Event) (eventId : String) (now : ℤ) :
    RescheduleResult :=
  let futureDate := addDays now 14
  match events.find? (fun ev => ev.id = eventId) with
  | none => .failure "Event not found"
  | some eventToReschedule =>
    let durationMinutes := (eventToReschedule.stop - eventToReschedule.start).fdiv 60000
    let result := findFreeTimeSlots events now futureDate durationMinutes
    let alternativeSlots :=
      (result.freeSlots.filter
        (fun slot => ! isSameDay slot.start eventToReschedule.start)).take 3
    .success eventToReschedule.id eventToReschedule.title eventToReschedule.start
      eventToReschedule.stop durationMinutes alternativeSlots

/-- Whether the character list p occurs at the head of the second list. -/
def prefixAt : List Char → List Char → Bool
  | [], _ => true
  | _ :: _, [] => false
  | a :: as, b :: bs => a = b && prefixAt as bs

/-- Whether the character list needle occurs contiguously anywhere in the
second list; String.prototype.includes on the underlying characters. -/
def containsSeq (needle : List Char) : List Char → Bool
  | [] => prefixAt needle []
  | c :: rest => prefixAt needle (c :: rest) || containsSeq needle rest

/-- JS String.prototype.includes. -/
def strIncludes (haystack needle : String) : Bool :=
  containsSeq needle.toList haystack.toList

/-- The findEvents filter predicate: any of title, description, location
(lower-cased) contains the lower-cased query; absent fields never match
(optional chaining yields undefined, which is falsy). -/
def matchesQuery (event : Event) (lowerQuery : String) : Bool :=
  (event.title.map (fun t => strIncludes t.toLower lowerQuery)).getD false
    || (event.description.map (fun d => strIncludes d.toLower lowerQuery)).getD false
    || (event.location.map (fun l => strIncludes l.toLower lowerQuery)).getD false

/-- findEvents(userId, query): fetch the next 30 days of events and filter by
the query. The try/catch in the source swallows any fetch failure and
returns the empty list; the fetch outcome is the fetched parameter and the
catch branch is the error case. -/
def findEvents (fetched : Except String (List Event)) (query : String) : List Event :=
  match fetched with
  | .error _ => []
  | .ok events => events.filter (fun ev => matchesQuery ev query.toLower)

/-- findOptimalMeetingTime: delegates to the external collaborator
findAvailableTimeSlots (module calendar-utils, not part of this snapshot);
its outcome is the slotsResult parameter. The try/catch in the source
swallows any failure and returns the empty list. -/
def findOptimalMeetingTime (slotsResult : Except String (List FreeSlot)) : List FreeSlot :=
  match slotsResult with
  | .error _ => []
  | .ok slots => slots

/-- Floor of a rational as an integer, computable (JS Math.floor). -/
def jsFloor (q : ℚ) : ℤ := q.num.fdiv q.den

/-- JS Math.round on finite values: floor(q + 1/2), halves round up. -/
def jsRound (q : ℚ) : ℤ := jsFloor (q + 1/2)

/-- Math.ceil(a / b) for integers a and b with b positive. -/
def ceilDiv (a b : ℤ) : ℤ := -((-a).fdiv b)

/-- dayCount of getCalendarAnalytics:
Math.ceil((end - start) / (1000*60*60*24)). -/
def dayCount (start stop : ℤ) : ℤ := ceilDiv (stop - start) msPerDay

/-- The day bucket key of an event start: the source formats the start as
yyyy-MM-dd; under the UTC model calendar days are in bijection with epoch
day indices, so the key is modelled as the epoch day index. -/
def dateKey (t : ℤ) : ℤ := t.fdiv msPerDay

/-- Increment the counter stored under key in an insertion-ordered
association list, appending a fresh entry when the key is new
(JS plain-object update obj[k] = (obj[k] || 0) + 1). -/
def bumpCount (counts : List (String × ℕ)) (key : String) : List (String × ℕ) :=
  if counts.any (fun p => p.1 = key) then
    counts.map (fun p => if p.1 = key then (p.1, p.2 + 1) else p)
  else counts ++ [(key, 1)]

/-- Add minutes to the bucket stored under key in an insertion-ordered
association list, appending a fresh entry when the key is new. -/
def addMinutes (buckets : List (ℤ × ℚ)) (key : ℤ) (minutes : ℚ) : List (ℤ × ℚ) :=
  if buckets.any (fun p => p.1 = key) then
    buckets.map (fun p => if p.1 = key then (p.1, p.2 + minutes) else p)
  else buckets ++ [(key, minutes)]

/-- Accumulator of the forEach aggregation loop of getCalendarAnalytics. -/
structure AnalyticsAcc where
  totalMeetingMinutes : ℚ
  meetingCount : ℕ
  categoryCounts : List (String × ℕ)
  dailyMeetingMinutes : List (ℤ × ℚ)
deriving DecidableEq

/-- One iteration of the aggregation loop: all-day events are skipped
entirely; otherwise the real-valued minute duration is accumulated, the
meeting count incremented, each category counter (or Uncategorized)
bumped, and the per-day bucket of the start day increased. -/
def analyticsStep (acc : AnalyticsAcc) (event : Event) : AnalyticsAcc :=
  if event.allDay then acc
  else
    let durationMinutes : ℚ := ((event.stop - event.start : ℤ) : ℚ) / 60000
    { totalMeetingMinutes := acc.totalMeetingMinutes + durationMinutes
      meetingCount := acc.meetingCount + 1
      categoryCounts :=
        if event.categories.length > 0 then
          event.categories.foldl bumpCount acc.categoryCounts
        else bumpCount acc.categoryCounts "Uncategorized"
      dailyMeetingMinutes :=
        addMinutes acc.dailyMeetingMinutes (dateKey event.start) durationMinutes }

/-- One step of the busiest-day scan: keep the bucket with strictly more
minutes than the best so far (ties keep the earlier bucket). -/
def busiestFold (best : Option ℤ × ℚ) (entry : ℤ × ℚ) : Option ℤ × ℚ :=
  if entry.2 > best.2 then (some entry.1, entry.2) else best

/-- The analytics report. Minute and hour fields are exact rationals; the
averageDaily fields are none when dayCount = 0 (the JS division produces
NaN or Infinity there); busiestDay is none when no bucket exists (the JS
empty string). -/
structure AnalyticsReport where
  totalMeetingMinutes : ℚ
  totalMeetingHours : ℚ
  meetingCount : ℕ
  averageMeetingLength : ℚ
  averageDailyMeetingMinutes : Option ℤ
  averageDailyMeetingHours : Option ℚ
  categoryCounts : List (String × ℕ)
  busiestDay : Option ℤ
  busiestDayMinutes : ℚ
  busiestDayHours : ℚ
  dailyMeetingMinutes : List (ℤ × ℚ)

/-- getCalendarAnalytics(userId, startDate, endDate): aggregate the fetched
snapshot (the events parameter), derive the averages over
dayCount = ceil((stop - start) / 1 day), and scan the per-day buckets in
insertion order for the busiest day. There is no guard on dayCount = 0. -/
def getCalendarAnalytics (events : List Event) (start stop : ℤ) : AnalyticsReport :=
  let acc := events.foldl analyticsStep ⟨0, 0, [], []⟩
  let dc := dayCount start stop
  let busiest := acc.dailyMeetingMinutes.foldl busiestFold (none, 0)
  { totalMeetingMinutes := acc.totalMeetingMinutes
    totalMeetingHours := (jsRound (acc.totalMeetingMinutes / 60 * 10) : ℚ) / 10
    meetingCount := acc.meetingCount
    averageMeetingLength :=
      if acc.meetingCount > 0 then
        (jsRound (acc.totalMeetingMinutes / (acc.meetingCount : ℚ)) : ℚ)
      else 0
    averageDailyMeetingMinutes :=
      if dc = 0 then none else some (jsRound (acc.totalMeetingMinutes / (dc : ℚ)))
    averageDailyMeetingHours :=
      if dc = 0 then none
      else some ((jsRound (acc.totalMeetingMinutes / (dc : ℚ) / 60 * 10) : ℚ) / 10)
    categoryCounts := acc.categoryCounts
    busiestDay := busiest.1
    busiestDayMinutes := busiest.2
    busiestDayHours := (jsRound (busiest.2 / 60 * 10) : ℚ) / 10
    dailyMeetingMinutes := acc.dailyMeetingMinutes }

/-- A plain timed event with no text fields and no categories, used for
concrete test inputs. -/
def sampleEvent (id : String) (start stop : ℤ) : Event :=
  ⟨id, none, none, none, start, stop, false, []⟩

/-- A plain all-day event used for concrete test inputs. -/
def sampleAllDayEvent (id : String) (start stop : ℤ) : Event :=
  ⟨id, none, none, none, start, stop, true, []⟩

/-- A timed event carrying categories, used for concrete test inputs. -/
def sampleCatEvent (id : String) (start stop : ℤ) (categories : List String) : Event :=
  ⟨id, none, none, none, start, stop, false, categories⟩

/-- Agreement of two analytics reports on every aggregate named by the
all-day exclusion property: totals, count, category histogram, per-day
histogram, and the busiest-day fields. -/
def sameAggregates (r r0 : AnalyticsReport) : Prop :=
  r.totalMeetingMinutes = r0.totalMeetingMinutes
    ∧ r.meetingCount = r0.meetingCount
    ∧ r.categoryCounts = r0.categoryCounts
    ∧ r.dailyMeetingMinutes = r0.dailyMeetingMinutes
    ∧ r.busiestDay = r0.busiestDay
    ∧ r.busiestDayMinutes = r0.busiestDayMinutes
    ∧ r.busiestDayHours = r0.busiestDayHours

/-- The all-zero shape of an analytics report over a snapshot with no counted
meeting: zero totals, empty histograms, and the empty busiest day. -/
def zeroReport (r : AnalyticsReport) : Prop :=
  r.totalMeetingMinutes = 0
    ∧ r.meetingCount = 0
    ∧ r.averageMeetingLength = 0
    ∧ r.categoryCounts = []
    ∧ r.dailyMeetingMinutes = []
    ∧ r.busiestDay = none
    ∧ r.busiestDayMinutes = 0

theorem jsFloor_intCast (n : ℤ) : jsFloor (n : ℚ) = n := by
  simp [jsFloor, Rat.num_intCast, Rat.den_intCast, Int.fdiv_one]

theorem jsRound_eq {q : ℚ} {n : ℤ} (h : q + 1/2 = (n : ℚ)) : jsRound q = n := by
  rw [jsRound, h, jsFloor_intCast]

/-- The aggregation loop leaves the accumulator unchanged on a list of
all-day events. -/
theorem foldl_analyticsStep_of_allDay :
    ∀ (l : List Event) (acc : AnalyticsAcc), (∀ e ∈ l, e.allDay = true) →
      l.foldl analyticsStep acc = acc := by
  intro l
  induction l with
  | nil => intro acc _; rfl
  | cons e t ih =>
    intro acc h
    have he : e.allDay = true := h e (List.mem_cons_self e t)
    rw [List.foldl_cons,
      show analyticsStep acc e = acc from by simp [analyticsStep, he]]
    exact ih acc (fun x hx => h x (List.mem_cons_of_mem e hx))

/-- C2: refuted as stated; the code has the defect the spec rules out. For a
degenerate range (startDate = endDate) the computed dayCount is 0, yet
getCalendarAnalytics performs no InvalidRange rejection: it divides anyway
and returns an ordinary report whose averageDailyMeetingMinutes and
averageDailyMeetingHours are the non-finite results of the division by zero
(modelled as none). -/
theorem C2_dayCount_zero_not_rejected :
    dayCount 0 0 = 0
      ∧ (getCalendarAnalytics [] 0 0).averageDailyMeetingMinutes = none
      ∧ (getCalendarAnalytics [] 0 0).averageDailyMeetingHours = none :=
  ⟨by decide, rfl, rfl⟩

/-- C3: refuted as stated; the code has the propagation defect the spec rules
out. When the event fetch behind findEvents fails, or the collaborator
computation behind findOptimalMeetingTime fails, the catch branch swallows
the error and returns the empty list in place of an explicit failure
result. -/
theorem C3_errors_swallowed_to_empty_list :
    findEvents (Except.error "repository failure") "meeting" = []
      ∧ findOptimalMeetingTime (Except.error "repository failure") = [] :=
  ⟨rfl, rfl⟩

/-- C4 counterexample: with counted meetings of 60 and 31 minutes the report
fields give meetingCount = 2, totalMeetingMinutes = 91, and
averageMeetingLength = Math.round(91/2) = 46, which differs from the exact
quotient 45.5: rounding IS applied to this quotient, refuting the claim as
stated. -/
theorem C4_counterexample :
    (getCalendarAnalytics [sampleEvent "a" 0 3600000, sampleEvent "b" 0 1860000]
        0 86400000).meetingCount = 2
      ∧ (getCalendarAnalytics [sampleEvent "a" 0 3600000, sampleEvent "b" 0 1860000]
            0 86400000).averageMeetingLength
          ≠ (getCalendarAnalytics [sampleEvent "a" 0 3600000, sampleEvent "b" 0 1860000]
              0 86400000).totalMeetingMinutes
            / ((getCalendarAnalytics [sampleEvent "a" 0 3600000, sampleEvent "b" 0 1860000]
                0 86400000).meetingCount : ℚ) := by
  have htot : (getCalendarAnalytics [sampleEvent "a" 0 3600000, sampleEvent "b" 0 1860000]
      0 86400000).totalMeetingMinutes = 91 := by
    show (0 : ℚ) + ((3600000 - 0 : ℤ) : ℚ) / 60000 + ((1860000 - 0 : ℤ) : ℚ) / 60000 = 91
    norm_num
  have hcnt : (getCalendarAnalytics [sampleEvent "a" 0 3600000, sampleEvent "b" 0 1860000]
      0 86400000).meetingCount = 2 := rfl
  have havg : (getCalendarAnalytics [sampleEvent "a" 0 3600000, sampleEvent "b" 0 1860000]
      0 86400000).averageMeetingLength = 46 := by
    show (if (0 + 1 + 1 : ℕ) > 0 then
        (jsRound (((0 : ℚ) + ((3600000 - 0 : ℤ) : ℚ) / 60000 + ((1860000 - 0 : ℤ) : ℚ) / 60000)
          / ((0 + 1 + 1 : ℕ) : ℚ)) : ℚ) else 0) = 46
    rw [if_pos (by norm_num)]
    rw [jsRound_eq (n := 46) (by push_cast; norm_num)]
    norm_num
  refine ⟨hcnt, ?_⟩
  rw [htot, hcnt, havg]
  norm_num

/-- C4 corrected: averageMeetingLength equals the quotient
totalMeetingMinutes / meetingCount rounded by Math.round (half up) whenever
at least one meeting is counted, and equals 0 when no meeting is counted. -/
theorem C4_averageMeetingLength_rounded :
    ∀ (events : List Event) (start stop : ℤ),
      (0 < (getCalendarAnalytics events start stop).meetingCount →
        (getCalendarAnalytics events start stop).averageMeetingLength
          = (jsRound ((getCalendarAnalytics events start stop).totalMeetingMinutes
              / ((getCalendarAnalytics events start stop).meetingCount : ℚ)) : ℚ))
      ∧ ((getCalendarAnalytics events start stop).meetingCount = 0 →
        (getCalendarAnalytics events start stop).averageMeetingLength = 0) := by
  intro events start stop
  constructor
  · intro h
    have h' : 0 < (events.foldl analyticsStep ⟨0, 0, [], []⟩).meetingCount := h
    show (if (events.foldl analyticsStep ⟨0, 0, [], []⟩).meetingCount > 0 then
        (jsRound ((events.foldl analyticsStep ⟨0, 0, [], []⟩).totalMeetingMinutes
          / ((events.foldl analyticsStep ⟨0, 0, [], []⟩).meetingCount : ℚ)) : ℚ) else 0) = _
    rw [if_pos h']
    rfl
  · intro h
    have h' : (events.foldl analyticsStep ⟨0, 0, [], []⟩).meetingCount = 0 := h
    show (if (events.foldl analyticsStep ⟨0, 0, [], []⟩).meetingCount > 0 then
        (jsRound ((events.foldl analyticsStep ⟨0, 0, [], []⟩).totalMeetingMinutes
          / ((events.foldl analyticsStep ⟨0, 0, [], []⟩).meetingCount : ℚ)) : ℚ) else 0) = 0
    rw [if_neg (by omega)]

/-- C4 witness: the corrected statement applied to the spec example, two
counted meetings of 60 and 30 minutes over a one-day range. -/
theorem C4_witness :
    (getCalendarAnalytics [sampleCatEvent "a" 0 3600000 ["work"], sampleEvent "b" 0 1800000]
        0 86400000).averageMeetingLength
      = (jsRound ((getCalendarAnalytics
            [sampleCatEvent "a" 0 3600000 ["work"], sampleEvent "b" 0 1800000]
            0 86400000).totalMeetingMinutes
          / ((getCalendarAnalytics
              [sampleCatEvent "a" 0 3600000 ["work"], sampleEvent "b" 0 1800000]
              0 86400000).meetingCount : ℚ)) : ℚ) :=
  (C4_averageMeetingLength_rounded
    [sampleCatEvent "a" 0 3600000 ["work"], sampleEvent "b" 0 1800000]
    0 86400000).1 (by decide)

/-- C8: adding an all-day event to a snapshot changes none of
totalMeetingMinutes, meetingCount, categoryCounts, dailyMeetingMinutes, or
the busiest-day fields of the analytics report. -/
theorem C8_allDay_contributes_nothing :
    ∀ (events : List Event) (e : Event) (start stop : ℤ), e.allDay = true →
      sameAggregates (getCalendarAnalytics (events ++ [e]) start stop)
        (getCalendarAnalytics events start stop) := by
  intro events e start stop h
  have hacc : (events ++ [e]).foldl analyticsStep ⟨0, 0, [], []⟩
      = events.foldl analyticsStep ⟨0, 0, [], []⟩ := by
    rw [List.foldl_append, List.foldl_cons, List.foldl_nil,
      show analyticsStep (events.foldl analyticsStep ⟨0, 0, [], []⟩) e
        = events.foldl analyticsStep ⟨0, 0, [], []⟩ from by simp [analyticsStep, h]]
  unfold sameAggregates getCalendarAnalytics
  rw [hacc]
  exact ⟨rfl, rfl, rfl, rfl, rfl, rfl, rfl⟩

/-- C8 witness: appending a concrete all-day event to a one-event snapshot
leaves all aggregates unchanged. -/
theorem C8_witness :
    sameAggregates
      (getCalendarAnalytics
        ([sampleEvent "a" 3600000 7200000] ++ [sampleAllDayEvent "h" 0 86400000]) 0 86400000)
      (getCalendarAnalytics [sampleEvent "a" 3600000 7200000] 0 86400000) :=
  C8_allDay_contributes_nothing [sampleEvent "a" 3600000 7200000]
    (sampleAllDayEvent "h" 0 86400000) 0 86400000 rfl

/-- C10: on a snapshot consisting only of all-day events (including the empty
snapshot), with a positive dayCount, the analytics report is all zero:
zero total minutes, zero meetings, zero average length, empty category and
per-day histograms, empty busiest day, and zero busiest-day minutes. -/
theorem C10_all_allDay_zero_report :
    ∀ (events : List Event) (start stop : ℤ),
      (∀ e ∈ events, e.allDay = true) → 0 < dayCount start stop →
      zeroReport (getCalendarAnalytics events start stop) := by
  intro events start stop h _
  have hacc := foldl_analyticsStep_of_allDay events ⟨0, 0, [], []⟩ h
  unfold zeroReport getCalendarAnalytics
  rw [hacc]
  exact ⟨rfl, rfl, rfl, rfl, rfl, rfl, rfl⟩

/-- C10 witness: one all-day event over a one-day range yields the all-zero
report. -/
theorem C10_witness :
    zeroReport (getCalendarAnalytics [sampleAllDayEvent "h" 0 86400000] 0 86400000) :=
  C10_all_allDay_zero_report [sampleAllDayEvent "h" 0 86400000] 0 86400000
    (by decide) (by decide)

theorem areIntervalsOverlapping_iff {a b : Iv} :
    areIntervalsOverlapping a b = true ↔ a.start < b.stop ∧ b.start < a.stop := by
  simp [areIntervalsOverlapping]

theorem areIntervalsOverlapping_false {a b : Iv}
    (h : areIntervalsOverlapping a b = false) : b.stop ≤ a.start ∨ a.stop ≤ b.start := by
  by_cases h1 : a.start < b.stop
  · by_cases h2 : b.start < a.stop
    · rw [areIntervalsOverlapping_iff.mpr ⟨h1, h2⟩] at h
      cases h
    · exact Or.inr (le_of_not_lt h2)
  · exact Or.inl (le_of_not_lt h1)

/-- Every slot emitted by the gap scan comes from one adjacent pair of
markers whose gap passes the minimum-duration test. -/
theorem mem_slotsOfMarkers {m : ℤ} :
    ∀ {l : List Iv} {s : FreeSlot}, s ∈ slotsOfMarkers m l →
      ∃ l1 a b l2, l = l1 ++ a :: b :: l2
        ∧ m * 60000 ≤ b.start - a.stop ∧ s = mkFreeSlot a b := by
  intro l
  induction l with
  | nil => intro s hs; simp [slotsOfMarkers] at hs
  | cons a t ih =>
    cases t with
    | nil => intro s hs; simp [slotsOfMarkers] at hs
    | cons b rest =>
      intro s hs
      rw [slotsOfMarkers] at hs
      rcases List.mem_append.mp hs with h1 | h2
      · by_cases hc : m * 60000 ≤ b.start - a.stop
        · refine ⟨[], a, b, rest, rfl, hc, ?_⟩
          simpa [hc] using h1
        · simp [hc] at h1
      · obtain ⟨l1, p, q, l2, heq, hc, hsq⟩ := ih h2
        exact ⟨a :: l1, p, q, l2, by rw [heq]; rfl, hc, hsq⟩

/-- Slots stay between any lower bound on marker stops and any upper bound
on marker starts. -/
theorem slotsOfMarkers_bounds {m lo hi : ℤ} {l : List Iv}
    (h : ∀ x ∈ l, lo ≤ x.stop ∧ x.start ≤ hi) :
    ∀ s ∈ slotsOfMarkers m l, lo ≤ s.start ∧ s.stop ≤ hi := by
  intro s hs
  obtain ⟨l1, a, b, l2, heq, _, rfl⟩ := mem_slotsOfMarkers hs
  have ha : a ∈ l := by rw [heq]; simp
  have hb : b ∈ l := by rw [heq]; simp
  exact ⟨(h a ha).1, (h b hb).2⟩

/-- Slot starts are bounded below by any lower bound on marker stops. -/
theorem slotsOfMarkers_start_lb {m c : ℤ} {l : List Iv}
    (h : ∀ x ∈ l, c ≤ x.stop) :
    ∀ s ∈ slotsOfMarkers m l, c ≤ s.start := by
  intro s hs
  obtain ⟨l1, a, b, l2, heq, _, rfl⟩ := mem_slotsOfMarkers hs
  exact h a (by rw [heq]; simp)

/-- Every emitted slot spans at least minDurationMinutes minutes and its
duration field is the floored minute count of its span. -/
theorem slotsOfMarkers_gap {m : ℤ} {l : List Iv} :
    ∀ s ∈ slotsOfMarkers m l,
      m * 60000 ≤ s.stop - s.start ∧ s.duration = (s.stop - s.start).fdiv 60000 := by
  intro s hs
  obtain ⟨l1, a, b, l2, _, hc, rfl⟩ := mem_slotsOfMarkers hs
  exact ⟨hc, rfl⟩

/-- With a nonnegative minimum duration every emitted slot is forward. -/
theorem slotsOfMarkers_le {m : ℤ} {l : List Iv} (hm : 0 ≤ m) :
    ∀ s ∈ slotsOfMarkers m l, s.start ≤ s.stop := by
  intro s hs
  have h := (slotsOfMarkers_gap s hs).1
  have h0 : (0 : ℤ) ≤ m * 60000 := mul_nonneg hm (by norm_num)
  omega

/-- With a nonnegative minimum duration and a marker tail sorted by start and
pointwise forward, the emitted slot list is ascending and chained: each
slot starts no earlier than the previous one and no earlier than the stop
of the previous one. -/
theorem slotsOfMarkers_pairwise {m : ℤ} (hm : 0 ≤ m) :
    ∀ (a : Iv) (t : List Iv), t.Pairwise (fun x y => x.start ≤ y.start) →
      (∀ x ∈ t, x.start ≤ x.stop) →
      (slotsOfMarkers m (a :: t)).Pairwise
        (fun s u => s.start ≤ u.start ∧ s.stop ≤ u.start) := by
  intro a t
  induction t generalizing a with
  | nil => intro _ _; simp [slotsOfMarkers]
  | cons b rest ih =>
    intro hsort hval
    rw [slotsOfMarkers]
    apply List.pairwise_append.mpr
    refine ⟨?_, ?_, ?_⟩
    · split <;> simp
    · exact ih b hsort.of_cons (fun x hx => hval x (List.mem_cons_of_mem b hx))
    · intro s1 hs1 u hu
      have hub : b.start ≤ u.start := by
        refine slotsOfMarkers_start_lb ?_ u hu
        intro x hx
        rcases List.mem_cons.mp hx with rfl | hx'
        · exact hval x (List.mem_cons_self x rest)
        · exact le_trans ((List.pairwise_cons.mp hsort).1 x hx')
            (hval x (List.mem_cons_of_mem b hx'))
      by_cases hc : m * 60000 ≤ b.start - a.stop
      · rw [if_pos hc] at hs1
        have hs1' : s1 = mkFreeSlot a b := by simpa using hs1
        subst hs1'
        have h0 : (0 : ℤ) ≤ m * 60000 := mul_nonneg hm (by norm_num)
        have hab : a.stop ≤ b.start := by omega
        exact ⟨le_trans hab hub, hub⟩
      · rw [if_neg hc] at hs1
        simp at hs1

/-- Decomposition of one adjacency inside the augmented marker list
firstSentinel :: eventMarkers ++ [lastSentinel]: the pair is the two
sentinels around an empty day, the first sentinel against the first event,
two adjacent events, or the last event against the last sentinel. -/
theorem adjacent_in_sentinel_list {S E a b : Iv} {evs l1 l2 : List Iv}
    (h : l1 ++ a :: b :: l2 = S :: (evs ++ [E])) :
    (a = S ∧ evs = [] ∧ b = E)
      ∨ (∃ t, a = S ∧ evs = b :: t)
      ∨ (∃ p q, evs = p ++ a :: b :: q)
      ∨ (∃ p, evs = p ++ [a] ∧ b = E) := by
  cases l1 with
  | nil =>
    rw [List.nil_append] at h
    have ha : a = S := by injection h
    have htail : b :: l2 = evs ++ [E] := by injection h
    cases evs with
    | nil =>
      have hb : b = E := by
        rw [List.nil_append] at htail
        injection htail
      exact Or.inl ⟨ha, rfl, hb⟩
    | cons e t =>
      have hb : b = e := by
        rw [List.cons_append] at htail
        injection htail
      exact Or.inr (Or.inl ⟨t, ha, by rw [hb]⟩)
  | cons S' l1' =>
    rw [List.cons_append] at h
    have htail : l1' ++ a :: b :: l2 = evs ++ [E] := by injection h
    rcases l2.eq_nil_or_concat with rfl | ⟨l2', x, rfl⟩
    · have h2 : (l1' ++ [a]) ++ [b] = evs ++ [E] := by
        rw [← htail]; simp
      obtain ⟨hevs, hb⟩ := List.append_inj' h2 rfl
      have hbE : b = E := by injection hb
      exact Or.inr (Or.inr (Or.inr ⟨l1', hevs.symm, hbE⟩))
    · have h2 : (l1' ++ a :: b :: l2') ++ [x] = evs ++ [E] := by
        rw [← htail]; simp [List.concat_eq_append]
      obtain ⟨hevs, _⟩ := List.append_inj' h2 rfl
      exact Or.inr (Or.inr (Or.inl ⟨l1', l2', hevs.symm⟩))

theorem effectiveDayStart_bounds {start d : ℤ} (h : start ≤ d + 61200000) :
    d + 32400000 ≤ effectiveDayStart start d ∧ effectiveDayStart start d ≤ d + 61200000 := by
  unfold effectiveDayStart
  split <;> omega

theorem effectiveDayEnd_bounds {stop d : ℤ} (h : d + 32400000 ≤ stop) :
    d + 32400000 ≤ effectiveDayEnd stop d ∧ effectiveDayEnd stop d ≤ d + 61200000 := by
  unfold effectiveDayEnd
  split <;> omega

theorem daySlots_of_guard {sorted' : List Event} {start stop m d : ℤ}
    (h : d + 61200000 < start ∨ d + 32400000 > stop) :
    daySlots sorted' start stop m d = [] := by
  unfold daySlots
  rw [if_pos h]

theorem daySlots_of_not_guard {sorted' : List Event} {start stop m d : ℤ}
    (h : ¬(d + 61200000 < start ∨ d + 32400000 > stop)) :
    daySlots sorted' start stop m d =
      slotsOfMarkers m
        (Iv.mk (effectiveDayStart start d) (effectiveDayStart start d) ::
          ((sorted'.filter (fun ev => areIntervalsOverlapping
              ⟨effectiveDayStart start d, effectiveDayEnd stop d⟩ ev.iv)).map Event.iv
            ++ [Iv.mk (effectiveDayEnd stop d) (effectiveDayEnd stop d)])) := by
  unfold daySlots
  rw [if_neg h]

/-- Every slot of a day lies inside the working window of that day. -/
theorem daySlots_mem_bounds {sorted' : List Event} {start stop m d : ℤ} :
    ∀ s ∈ daySlots sorted' start stop m d,
      d + 32400000 ≤ s.start ∧ s.stop ≤ d + 61200000 := by
  intro s hs
  by_cases hg : d + 61200000 < start ∨ d + 32400000 > stop
  · rw [daySlots_of_guard hg] at hs
    cases hs
  · rw [daySlots_of_not_guard hg] at hs
    push_neg at hg
    refine slotsOfMarkers_bounds ?_ s hs
    intro x hx
    rcases List.mem_cons.mp hx with rfl | hx'
    · exact ⟨(effectiveDayStart_bounds hg.1).1, (effectiveDayStart_bounds hg.1).2⟩
    rcases List.mem_append.mp hx' with hev | hE
    · obtain ⟨ev, hevmem, rfl⟩ := List.mem_map.mp hev
      have hcond := areIntervalsOverlapping_iff.mp (List.mem_filter.mp hevmem).2
      exact ⟨le_trans (effectiveDayStart_bounds hg.1).1 (le_of_lt hcond.1),
        le_trans (le_of_lt hcond.2) (effectiveDayEnd_bounds hg.2).2⟩
    · have hx2 : x = Iv.mk (effectiveDayEnd stop d) (effectiveDayEnd stop d) := by
        simpa using hE
      subst hx2
      exact ⟨(effectiveDayEnd_bounds hg.2).1, (effectiveDayEnd_bounds hg.2).2⟩

/-- With a nonnegative minimum duration every slot of a day is forward. -/
theorem daySlots_le {sorted' : List Event} {start stop m d : ℤ} (hm : 0 ≤ m) :
    ∀ s ∈ daySlots sorted' start stop m d, s.start ≤ s.stop := by
  intro s hs
  by_cases hg : d + 61200000 < start ∨ d + 32400000 > stop
  · rw [daySlots_of_guard hg] at hs
    cases hs
  · rw [daySlots_of_not_guard hg] at hs
    exact slotsOfMarkers_le hm s hs

/-- With a nonnegative minimum duration, a snapshot sorted ascending by start
whose events are all forward yields an ascending chained slot list for
each single day. -/
theorem daySlots_pairwise {sorted' : List Event} {start stop m d : ℤ} (hm : 0 ≤ m)
    (hsorted : sorted'.Pairwise eventLe)
    (hval : ∀ e ∈ sorted', e.start ≤ e.stop) :
    (daySlots sorted' start stop m d).Pairwise
      (fun s u => s.start ≤ u.start ∧ s.stop ≤ u.start) := by
  by_cases hg : d + 61200000 < start ∨ d + 32400000 > stop
  · rw [daySlots_of_guard hg]
    exact List.Pairwise.nil
  · rw [daySlots_of_not_guard hg]
    apply slotsOfMarkers_pairwise hm
    · apply List.pairwise_append.mpr
      refine ⟨?_, by simp, ?_⟩
      · rw [List.pairwise_map]
        exact List.Pairwise.sublist (List.filter_sublist sorted') hsorted
      · intro x hx y hy
        have hy2 : y = Iv.mk (effectiveDayEnd stop d) (effectiveDayEnd stop d) := by
          simpa using hy
        subst hy2
        obtain ⟨ev, hevmem, rfl⟩ := List.mem_map.mp hx
        have hcond := areIntervalsOverlapping_iff.mp (List.mem_filter.mp hevmem).2
        exact le_of_lt hcond.2
    · intro x hx
      rcases List.mem_append.mp hx with hev | hE
      · obtain ⟨ev, hevmem, rfl⟩ := List.mem_map.mp hev
        exact hval ev (List.mem_of_mem_filter hevmem)
      · have hx2 : x = Iv.mk (effectiveDayEnd stop d) (effectiveDayEnd stop d) := by
          simpa using hE
        subst hx2
        exact le_refl _

/-- The day loop visits strictly increasing midnights, one day apart. -/
theorem dayList_pairwise (start stop : ℤ) :
    (dayList start stop).Pairwise (fun d1 d2 => d1 + msPerDay ≤ d2) := by
  unfold dayList
  have h := List.pairwise_lt_range (numDays start stop)
  refine List.Pairwise.map _ ?_ h
  intro i j hij
  have hij' : (i : ℤ) + 1 ≤ (j : ℤ) := by exact_mod_cast hij
  show startOfDay start + msPerDay * (i : ℤ) + msPerDay ≤ startOfDay start + msPerDay * (j : ℤ)
  unfold msPerDay
  omega

theorem findFreeTimeSlots_freeSlots (events : List Event) (start stop m : ℤ) :
    (findFreeTimeSlots events start stop m).freeSlots =
      (dayList start stop).flatMap
        (daySlots (List.insertionSort eventLe events) start stop m) := rfl

/-- With a nonnegative minimum duration and forward events, the whole
freeSlots output is ascending by start and chained: every later slot
starts no earlier than the stop of every earlier one. -/
theorem freeSlots_pairwise (events : List Event) (start stop m : ℤ)
    (hval : ∀ e ∈ events, e.start ≤ e.stop) (hm : 0 ≤ m) :
    ((findFreeTimeSlots events start stop m).freeSlots).Pairwise
      (fun s u => s.start ≤ u.start ∧ s.stop ≤ u.start) := by
  rw [findFreeTimeSlots_freeSlots]
  have hsorted : (List.insertionSort eventLe events).Pairwise eventLe :=
    List.sorted_insertionSort eventLe events
  have hval' : ∀ e ∈ List.insertionSort eventLe events, e.start ≤ e.stop :=
    fun e he => hval e ((List.perm_insertionSort eventLe events).mem_iff.mp he)
  have haux : ∀ ds : List ℤ, ds.Pairwise (fun d1 d2 => d1 + msPerDay ≤ d2) →
      ((ds.flatMap (daySlots (List.insertionSort eventLe events) start stop m)).Pairwise
        (fun s u => s.start ≤ u.start ∧ s.stop ≤ u.start)) := by
    intro ds
    induction ds with
    | nil => intro _; simp
    | cons d rest ihd =>
      intro hp
      rw [List.flatMap_cons]
      apply List.pairwise_append.mpr
      refine ⟨daySlots_pairwise hm hsorted hval', ihd hp.of_cons, ?_⟩
      intro x hx y hy
      obtain ⟨d', hd', hy'⟩ := List.mem_flatMap.mp hy
      have hdd : d + msPerDay ≤ d' := (List.pairwise_cons.mp hp).1 d' hd'
      have hxb := daySlots_mem_bounds x hx
      have hyb := daySlots_mem_bounds y hy'
      have hxle := daySlots_le hm x hx
      have hkey : x.stop ≤ y.start := by
        have : (msPerDay : ℤ) = 86400000 := rfl
        omega
      exact ⟨le_trans hxle hkey, hkey⟩
  exact haux (dayList start stop) (dayList_pairwise start stop)

theorem le_fdiv_60000 {m a : ℤ} (h : m * 60000 ≤ a) : m ≤ a.fdiv 60000 := by
  have h1 : (m * 60000).fdiv 60000 ≤ a.fdiv 60000 := by
    rw [Int.fdiv_eq_ediv _ (by norm_num), Int.fdiv_eq_ediv _ (by norm_num)]
    exact Int.ediv_le_ediv (by norm_num) h
  rwa [show (m * 60000).fdiv 60000 = m from by
    rw [Int.fdiv_eq_ediv _ (by norm_num)]
    exact Int.mul_ediv_cancel _ (by norm_num)] at h1

/-- C6 counterexample: with forward events 09:00 to 16:00 and 10:00 to 10:30
and minDurationMinutes = -600, the negative inner gap passes the duration
test and the returned freeSlots list is not sorted ascending by start,
refuting the claim as stated (which constrains only the events). -/
theorem C6_counterexample :
    (∀ e ∈ [sampleEvent "a" 32400000 57600000, sampleEvent "b" 36000000 37800000],
        e.start ≤ e.stop)
      ∧ ¬ ((findFreeTimeSlots
            [sampleEvent "a" 32400000 57600000, sampleEvent "b" 36000000 37800000]
            32400000 61200000 (-600)).freeSlots.Pairwise
              (fun s u => s.start ≤ u.start)) := by decide

/-- C6 corrected: with the additional assumption that minDurationMinutes is
nonnegative, the returned freeSlots list of a snapshot of forward events is
globally ascending by start and pairwise non-overlapping: every later slot
starts no earlier than the start and the stop of every earlier slot. -/
theorem C6_sorted_nonoverlapping_of_nonneg_min :
    ∀ (events : List Event) (start stop m : ℤ),
      (∀ e ∈ events, e.start ≤ e.stop) → 0 ≤ m →
      ((findFreeTimeSlots events start stop m).freeSlots.Pairwise
        (fun s u => s.start ≤ u.start ∧ s.stop ≤ u.start)) :=
  fun events start stop m hval hm => freeSlots_pairwise events start stop m hval hm

/-- C6 witness: the corrected statement applied to the counterexample events
with the default minimum duration 30. -/
theorem C6_witness :
    ((findFreeTimeSlots
        [sampleEvent "a" 32400000 57600000, sampleEvent "b" 36000000 37800000]
        32400000 61200000 30).freeSlots.Pairwise
          (fun s u => s.start ≤ u.start ∧ s.stop ≤ u.start)) :=
  C6_sorted_nonoverlapping_of_nonneg_min
    [sampleEvent "a" 32400000 57600000, sampleEvent "b" 36000000 37800000]
    32400000 61200000 30 (by decide) (by decide)

/-- C7: for nonnegative minDurationMinutes every returned slot satisfies
stop - start at least minDurationMinutes * 60000 milliseconds (that is,
the span is at least minDurationMinutes minutes) and its whole-minute
duration field is at least minDurationMinutes. -/
theorem C7_min_duration_respected :
    ∀ (events : List Event) (start stop m : ℤ), 0 ≤ m →
      ∀ s ∈ (findFreeTimeSlots events start stop m).freeSlots,
        m * 60000 ≤ s.stop - s.start ∧ m ≤ s.duration := by
  intro events start stop m _ s hs
  rw [findFreeTimeSlots_freeSlots] at hs
  obtain ⟨d, _, hsd⟩ := List.mem_flatMap.mp hs
  by_cases hg : d + 61200000 < start ∨ d + 32400000 > stop
  · rw [daySlots_of_guard hg] at hsd
    cases hsd
  · rw [daySlots_of_not_guard hg] at hsd
    obtain ⟨hgap, hdur⟩ := slotsOfMarkers_gap s hsd
    exact ⟨hgap, hdur ▸ le_fdiv_60000 hgap⟩

/-- C7 witness: the single slot of an empty working day of length 480 minutes
satisfies the 30-minute minimum. -/
theorem C7_witness :
    (30 : ℤ) * 60000
        ≤ (FreeSlot.mk 32400000 61200000 480).stop - (FreeSlot.mk 32400000 61200000 480).start
      ∧ (30 : ℤ) ≤ (FreeSlot.mk 32400000 61200000 480).duration :=
  C7_min_duration_respected [] 32400000 61200000 30 (by decide)
    ⟨32400000, 61200000, 480⟩ (by decide)

/-- In the degenerate day shape where the clipped window is empty or inverted
(effectiveDayEnd at most effectiveDayStart), every adjacent gap is
nonpositive, so a positive minimum duration suppresses every slot. -/
theorem slotsOfMarkers_nil_of_degenerate {m effS effE : ℤ} {evs : List Iv}
    (hm : 0 < m) (hdeg : effE ≤ effS)
    (hin : ∀ x ∈ evs, effS < x.stop ∧ x.start < effE) :
    slotsOfMarkers m (Iv.mk effS effS :: (evs ++ [Iv.mk effE effE])) = [] := by
  rw [List.eq_nil_iff_forall_not_mem]
  intro s hs
  obtain ⟨l1, a, b, l2, heq, hc, _⟩ := mem_slotsOfMarkers hs
  have hm60 : (0 : ℤ) < m * 60000 := by positivity
  rcases adjacent_in_sentinel_list heq.symm with
    ⟨ha, _, hb⟩ | ⟨t, ha, hevs⟩ | ⟨p, q, hevs⟩ | ⟨p, hevs, hb⟩
  · subst ha; subst hb
    have hc' : m * 60000 ≤ effE - effS := hc
    omega
  · subst ha
    have hbmem : b ∈ evs := by rw [hevs]; exact List.mem_cons_self b t
    have hbin := hin b hbmem
    have hc' : m * 60000 ≤ b.start - effS := hc
    omega
  · have hamem : a ∈ evs := by rw [hevs]; simp
    have hbmem : b ∈ evs := by rw [hevs]; simp
    have hain := hin a hamem
    have hbin := hin b hbmem
    omega
  · subst hb
    have hamem : a ∈ evs := by rw [hevs]; simp
    have hain := hin a hamem
    have hc' : m * 60000 ≤ effE - a.stop := hc
    omega

/-- C5 counterexample: for the query range from day 1 at 12:00 to day 2 at
09:00 and minDurationMinutes = 0, the working window of day 2 touches the
range only at its endpoint, so under half-open semantics it does not
overlap the range, yet the day contributes a zero-length slot at 09:00 to
the output, refuting the claim as stated. -/
theorem C5_counterexample :
    (86400000 : ℤ) ∈ dayList 43200000 118800000
      ∧ areIntervalsOverlapping ⟨86400000 + 32400000, 86400000 + 61200000⟩
          ⟨43200000, 118800000⟩ = false
      ∧ daySlots (List.insertionSort eventLe []) 43200000 118800000 0 86400000
          = [⟨118800000, 118800000, 0⟩]
      ∧ (⟨118800000, 118800000, 0⟩ : FreeSlot)
          ∈ (findFreeTimeSlots [] 43200000 118800000 0).freeSlots := by decide

/-- C5 corrected: with a positive minDurationMinutes, an iterated day whose
working window does not overlap the query range under half-open semantics
contributes no slot, zero-length or otherwise; with minDurationMinutes = 0
a window touching the range boundary emits one zero-length slot. -/
theorem C5_nonoverlapping_day_contributes_nothing :
    ∀ (events : List Event) (start stop m d : ℤ), 0 < m →
      d ∈ dayList start stop →
      areIntervalsOverlapping ⟨d + 32400000, d + 61200000⟩ ⟨start, stop⟩ = false →
      daySlots (List.insertionSort eventLe events) start stop m d = [] := by
  intro events start stop m d hm _ hno
  by_cases hg : d + 61200000 < start ∨ d + 32400000 > stop
  · exact daySlots_of_guard hg
  · rw [daySlots_of_not_guard hg]
    push_neg at hg
    have hno' : stop ≤ d + 32400000 ∨ d + 61200000 ≤ start :=
      areIntervalsOverlapping_false hno
    have hdeg : effectiveDayEnd stop d ≤ effectiveDayStart start d := by
      unfold effectiveDayStart effectiveDayEnd
      rcases hno' with h1 | h2 <;> split_ifs <;> omega
    apply slotsOfMarkers_nil_of_degenerate hm hdeg
    intro x hx
    obtain ⟨ev, hevmem, rfl⟩ := List.mem_map.mp hx
    exact areIntervalsOverlapping_iff.mp (List.mem_filter.mp hevmem).2

/-- C5 witness: the corrected statement at the counterexample day with the
default positive minimum duration 30. -/
theorem C5_witness :
    daySlots (List.insertionSort eventLe []) 43200000 118800000 30 86400000 = [] :=
  C5_nonoverlapping_day_contributes_nothing [] 43200000 118800000 30 86400000
    (by decide) (by decide) (by decide)

/-- C9: when the snapshot contains the target event id and its events are
forward, suggestRescheduling succeeds with at most 3 alternative slots, in
ascending start order, none of which starts on the calendar day of the
target event start. -/
theorem C9_reschedule_alternatives :
    ∀ (events : List Event) (eventId : String) (now : ℤ) (ev : Event),
      events.find? (fun e => e.id = eventId) = some ev →
      (∀ e ∈ events, e.start ≤ e.stop) →
      (suggestRescheduling events eventId now).alternatives.length ≤ 3
        ∧ ((suggestRescheduling events eventId now).alternatives.Pairwise
            (fun s u => s.start ≤ u.start))
        ∧ ∀ s ∈ (suggestRescheduling events eventId now).alternatives,
            isSameDay s.start ev.start = false := by
  intro events eventId now ev hfind hval
  have hev : ev ∈ events := List.mem_of_find?_eq_some hfind
  have hvalev : ev.start ≤ ev.stop := hval ev hev
  have hm : 0 ≤ (ev.stop - ev.start).fdiv 60000 :=
    Int.fdiv_nonneg (by omega) (by norm_num)
  have halts : (suggestRescheduling events eventId now).alternatives
      = ((findFreeTimeSlots events now (addDays now 14)
            ((ev.stop - ev.start).fdiv 60000)).freeSlots.filter
          (fun slot => ! isSameDay slot.start ev.start)).take 3 := by
    unfold suggestRescheduling
    rw [hfind]
    rfl
  refine ⟨?_, ?_, ?_⟩
  · rw [halts]
    exact List.length_take_le 3 _
  · rw [halts]
    have hp := freeSlots_pairwise events now (addDays now 14)
      ((ev.stop - ev.start).fdiv 60000) hval hm
    have hp1 : ((findFreeTimeSlots events now (addDays now 14)
        ((ev.stop - ev.start).fdiv 60000)).freeSlots).Pairwise
          (fun s u : FreeSlot => s.start ≤ u.start) :=
      hp.imp (fun h => h.1)
    exact List.Pairwise.sublist (List.take_sublist _ _)
      (List.Pairwise.sublist (List.filter_sublist _) hp1)
  · rw [halts]
    intro s hs
    have hs' := List.mem_of_mem_take hs
    have hfs := (List.mem_filter.mp hs').2
    simpa using hfs

/-- C9 witness: a snapshot holding the target event (day 1, 10:00 to 10:30)
looked up at time 0. -/
theorem C9_witness :
    (suggestRescheduling [sampleEvent "m" 36000000 37800000] "m" 0).alternatives.length ≤ 3
      ∧ ((suggestRescheduling [sampleEvent "m" 36000000 37800000] "m" 0).alternatives.Pairwise
          (fun s u => s.start ≤ u.start))
      ∧ ∀ s ∈ (suggestRescheduling [sampleEvent "m" 36000000 37800000] "m" 0).alternatives,
          isSameDay s.start (sampleEvent "m" 36000000 37800000).start = false :=
  C9_reschedule_alternatives [sampleEvent "m" 36000000 37800000] "m" 0
    (sampleEvent "m" 36000000 37800000) (by decide) (by decide)

theorem areIntervalsOverlapping_comm (a b : Iv) :
    areIntervalsOverlapping a b = areIntervalsOverlapping b a := by
  unfold areIntervalsOverlapping
  exact Bool.and_comm _ _

/-- Core per-day disjointness: when the selected event markers are sorted by
start, chained (each stops no later than the next starts), forward, and
all meet the clipped window, and the interval g lies among them whenever
it overlaps the window, then no emitted slot overlaps g. -/
theorem slotsOfMarkers_disjoint {m effS effE : ℤ} {evs : List Iv} {g : Iv}
    (hsorted : evs.Pairwise (fun x y => x.start ≤ y.start))
    (hchain : evs.Pairwise (fun x y => x.stop ≤ y.start))
    (hval : ∀ x ∈ evs, x.start ≤ x.stop)
    (hin : ∀ x ∈ evs, effS < x.stop ∧ x.start < effE)
    (hg : areIntervalsOverlapping ⟨effS, effE⟩ g = true → g ∈ evs) :
    ∀ s ∈ slotsOfMarkers m (Iv.mk effS effS :: (evs ++ [Iv.mk effE effE])),
      areIntervalsOverlapping ⟨s.start, s.stop⟩ g = false := by
  intro s hs
  obtain ⟨l1, a, b, l2, heq, _, rfl⟩ := mem_slotsOfMarkers hs
  cases hb : areIntervalsOverlapping
      ⟨(mkFreeSlot a b).start, (mkFreeSlot a b).stop⟩ g with
  | false => rfl
  | true =>
  exfalso
  have hov : a.stop < g.stop ∧ g.start < b.start := areIntervalsOverlapping_iff.mp hb
  have hov1 := hov.1
  have hov2 := hov.2
  have hcases := adjacent_in_sentinel_list heq.symm
  have hbounds : effS ≤ a.stop ∧ b.start ≤ effE := by
    rcases hcases with ⟨ha, _, hbE⟩ | ⟨t, ha, hevs⟩ | ⟨p, q, hevs⟩ | ⟨p, hevs, hbE⟩
    · subst ha; subst hbE; exact ⟨le_refl _, le_refl _⟩
    · subst ha
      have hbm : b ∈ evs := by rw [hevs]; exact List.mem_cons_self b t
      exact ⟨le_refl _, le_of_lt (hin b hbm).2⟩
    · have ham : a ∈ evs := by rw [hevs]; simp
      have hbm : b ∈ evs := by rw [hevs]; simp
      exact ⟨le_of_lt (hin a ham).1, le_of_lt (hin b hbm).2⟩
    · subst hbE
      have ham : a ∈ evs := by rw [hevs]; simp
      exact ⟨le_of_lt (hin a ham).1, le_refl _⟩
  have hb1 := hbounds.1
  have hb2 := hbounds.2
  by_cases hgw : areIntervalsOverlapping ⟨effS, effE⟩ g = true
  · have hgm : g ∈ evs := hg hgw
    rcases hcases with ⟨ha, hevsnil, hbE⟩ | ⟨t, ha, hevs⟩ | ⟨p, q, hevs⟩ | ⟨p, hevs, hbE⟩
    · rw [hevsnil] at hgm
      cases hgm
    · subst ha
      subst hevs
      rcases List.mem_cons.mp hgm with rfl | hgt
      · exact absurd hov2 (lt_irrefl _)
      · have h5 := (List.pairwise_cons.mp hsorted).1 g hgt
        omega
    · subst hevs
      obtain ⟨_, hchain_rest, hchain_cross⟩ := List.pairwise_append.mp hchain
      obtain ⟨_, hsorted_rest, _⟩ := List.pairwise_append.mp hsorted
      have hbq_sorted := (List.pairwise_cons.mp
        (List.pairwise_cons.mp hsorted_rest).2).1
      rcases List.mem_append.mp hgm with hgp | hgabq
      · have h5 := hchain_cross g hgp a (by simp)
        have h6 := hval a (by simp)
        omega
      · rcases List.mem_cons.mp hgabq with rfl | hgbq
        · exact absurd hov1 (lt_irrefl _)
        · rcases List.mem_cons.mp hgbq with rfl | hgq
          · exact absurd hov2 (lt_irrefl _)
          · have h5 := hbq_sorted g hgq
            omega
    · subst hbE
      subst hevs
      rcases List.mem_append.mp hgm with hgp | hga
      · obtain ⟨_, _, hchain_cross⟩ := List.pairwise_append.mp hchain
        have h5 := hchain_cross g hgp a (by simp)
        have h6 := hval a (by simp)
        omega
      · have hga' : g = a := by simpa using hga
        subst hga'
        exact absurd hov1 (lt_irrefl _)
  · have hgw' : areIntervalsOverlapping ⟨effS, effE⟩ g = false := by
      revert hgw
      cases areIntervalsOverlapping ⟨effS, effE⟩ g <;> simp
    have h3 : g.stop ≤ effS ∨ effE ≤ g.start := areIntervalsOverlapping_false hgw'
    omega

/-- C1 counterexample: with the nested events 09:00 to 12:00 and 10:00 to
10:30 (both forward) and minDurationMinutes = 30, the output contains the
slot 10:30 to 17:00, which overlaps the first event under half-open
semantics: the minimum-duration test does not suppress the spurious gap
that overlapping events create, refuting the claim as stated. -/
theorem C1_counterexample :
    (∀ e ∈ [sampleEvent "a" 32400000 43200000, sampleEvent "b" 36000000 37800000],
        e.start ≤ e.stop)
      ∧ ∃ s ∈ (findFreeTimeSlots
            [sampleEvent "a" 32400000 43200000, sampleEvent "b" 36000000 37800000]
            32400000 61200000 30).freeSlots,
          ∃ g ∈ [sampleEvent "a" 32400000 43200000, sampleEvent "b" 36000000 37800000],
            areIntervalsOverlapping ⟨s.start, s.stop⟩ g.iv = true := by decide

/-- C1 corrected: when the input events are pairwise non-overlapping under
half-open semantics and each has positive duration (start < end), every
returned free slot overlaps no event of the snapshot; with merely forward
events, overlapping (e.g. nested) events can make the scan return a slot
that overlaps an event, and the minimum-duration test does not suppress
it. -/
theorem C1_free_slots_overlap_no_event :
    ∀ (events : List Event) (start stop m : ℤ),
      (∀ e ∈ events, e.start < e.stop) →
      events.Pairwise (fun e f => areIntervalsOverlapping e.iv f.iv = false) →
      ∀ s ∈ (findFreeTimeSlots events start stop m).freeSlots,
        ∀ g ∈ events, areIntervalsOverlapping ⟨s.start, s.stop⟩ g.iv = false := by
  intro events start stop m hpos hdisj s hs g hgmem
  rw [findFreeTimeSlots_freeSlots] at hs
  obtain ⟨d, _, hsd⟩ := List.mem_flatMap.mp hs
  by_cases hgd : d + 61200000 < start ∨ d + 32400000 > stop
  · rw [daySlots_of_guard hgd] at hsd
    cases hsd
  · rw [daySlots_of_not_guard hgd] at hsd
    have hperm := List.perm_insertionSort eventLe events
    have hsorted : (List.insertionSort eventLe events).Pairwise eventLe :=
      List.sorted_insertionSort eventLe events
    have hdisj' : (List.insertionSort eventLe events).Pairwise
        (fun e f => areIntervalsOverlapping e.iv f.iv = false) := by
      refine (hperm.pairwise_iff ?_).mpr hdisj
      intro x y hxy
      rw [areIntervalsOverlapping_comm]
      exact hxy
    have hpos' : ∀ e ∈ List.insertionSort eventLe events, e.start < e.stop :=
      fun e he => hpos e (hperm.mem_iff.mp he)
    have hchain : (List.insertionSort eventLe events).Pairwise
        (fun e f => e.stop ≤ f.start) := by
      refine (hsorted.and hdisj').imp_of_mem ?_
      intro e f _ hfmem hef
      have h1 : e.start ≤ f.start := hef.1
      have h2 : f.stop ≤ e.start ∨ e.stop ≤ f.start :=
        areIntervalsOverlapping_false hef.2
      have h3 := hpos' f hfmem
      omega
    have hfsorted := List.Pairwise.sublist
      (List.filter_sublist (p := fun ev : Event => areIntervalsOverlapping
        ⟨effectiveDayStart start d, effectiveDayEnd stop d⟩ ev.iv) _) hsorted
    have hfchain := List.Pairwise.sublist
      (List.filter_sublist (p := fun ev : Event => areIntervalsOverlapping
        ⟨effectiveDayStart start d, effectiveDayEnd stop d⟩ ev.iv) _) hchain
    refine slotsOfMarkers_disjoint (g := g.iv)
      (List.Pairwise.map Event.iv (fun a b h => h) hfsorted)
      (List.Pairwise.map Event.iv (fun a b h => h) hfchain)
      ?_ ?_ ?_ s hsd
    · intro x hx
      obtain ⟨ev, hevm, rfl⟩ := List.mem_map.mp hx
      exact le_of_lt (hpos' ev (List.mem_of_mem_filter hevm))
    · intro x hx
      obtain ⟨ev, hevm, rfl⟩ := List.mem_map.mp hx
      exact areIntervalsOverlapping_iff.mp (List.mem_filter.mp hevm).2
    · intro hov
      have hgs : g ∈ List.insertionSort eventLe events := hperm.mem_iff.mpr hgmem
      exact List.mem_map.mpr ⟨g, List.mem_filter.mpr ⟨hgs, hov⟩, rfl⟩

/-- C1 witness: a single positive event 09:00 to 10:00 over one working day
yields the slot 10:00 to 17:00, which does not overlap the event. -/
theorem C1_witness :
    areIntervalsOverlapping
        ⟨(FreeSlot.mk 36000000 61200000 420).start, (FreeSlot.mk 36000000 61200000 420).stop⟩
        (sampleEvent "a" 32400000 36000000).iv = false :=
  C1_free_slots_overlap_no_event [sampleEvent "a" 32400000 36000000]
    32400000 61200000 30 (by decide) (by decide)
    ⟨36000000, 61200000, 420⟩ (by decide)
    (sampleEvent "a" 32400000 36000000) (by decide)

end ZeroCalendar
